import Mathlib

/-!
Shallow embedding of the r2d2 connection-pool core (src/src/lib.rs) and its
scheduled worker pool (src/src/task.rs), together with theorems settling the
spec claims about them.

Modelling conventions:
* The manager capability is passed explicitly as functions
  (`isValid : C → Except E Unit`, `hasBroken : C → Bool`); the outcome of
  `connect` is passed as an `Except E C` value to the job body.
* The `RingBuf` ready queue is a `List` (front = head, `push_back` appends).
* `u32`/`u64` counters are `Nat`; where the Rust cast arithmetic wraps
  (the fixed-rate deadline computation) the wrap is written `% 2 ^ 64`.
* Side effects on the error handler and condition variables are reified as an
  `Effect` list / a `Bool` notification flag in the return value.
* Jobs handed to the scheduled thread pool by `add_connection` are counted in
  `pendingJobs`: `thread_pool.run` increments it, running the job consumes it.
-/

/-- Modelled from the spec: the `config` module of the repository is not under
`src/` (only `lib.rs` and `task.rs` are). `Config` and `Config.validate` are
reconstructed from the spec: `pool_size : u32 > 0`, `helper_threads ≥ 1`,
`test_on_check_out : bool`, with errors `ZeroPoolSize` and `ZeroHelperThreads`.
The field holding the helper-thread count is called `helper_tasks`, the name
`Pool::new` reads (`config.helper_tasks`). -/
structure Config where
  pool_size : Nat
  helper_tasks : Nat
  test_on_check_out : Bool
  deriving DecidableEq, Repr

/-- Modelled from the spec: `ConfigError` values `ZeroPoolSize`,
`ZeroHelperThreads`. -/
inductive ConfigError where
  | ZeroPoolSize
  | ZeroHelperThreads
  deriving DecidableEq, Repr

/-- Modelled from the spec: `Pool::new` validates the config, failing exactly
when `pool_size = 0` or `helper_threads = 0`. -/
def Config.validate (c : Config) : Except ConfigError Unit :=
  if c.pool_size = 0 then .error .ZeroPoolSize
  else if c.helper_tasks = 0 then .error .ZeroHelperThreads
  else .ok ()

/-- Observable side effects of a pool operation: an error reported to the
`ErrorHandler` (`error_handler.handle_error`), or `cond.notify_one`. -/
inductive Effect (E : Type) where
  | reported (e : E)
  | notifyOne
  deriving DecidableEq, Repr

/-- Model of `PoolInternals` (lib.rs lines 76-80) plus bookkeeping for the embedded
`ScheduledThreadPool`: `conns` is the `RingBuf<C>` ready queue, `numConns` the
`num_conns : u32` counter, `pendingJobs` counts jobs enqueued into
`thread_pool` but not yet executed, `workers` the worker-thread count of the
embedded `ScheduledThreadPool`. -/
structure PoolState (C : Type) where
  conns : List C
  numConns : Nat
  pendingJobs : Nat
  workers : Nat
  deriving DecidableEq, Repr

/-- Model of `add_connection` (lib.rs lines 92-107) as seen from the caller: it enqueues
one closure into `internals.thread_pool`; the closure body itself is
`connJobRun`. -/
def add_connection {C : Type} (s : PoolState C) : PoolState C :=
  { s with pendingJobs := s.pendingJobs + 1 }

/-- The body of the closure enqueued by `add_connection` (lib.rs lines 96-105),
run by a worker thread: `res` is the outcome of `shared.manager.connect()`.
On `Ok(conn)`: lock internals, `conns.push_back(conn)`, `num_conns += 1`,
`cond.notify_one()`. On `Err(err)`: `error_handler.handle_error(err)`.
Running the job consumes one pending job. -/
def connJobRun {C E : Type} (res : Except E C) (s : PoolState C) :
    PoolState C × List (Effect E) :=
  match res with
  | .ok conn =>
      ({ s with conns := s.conns ++ [conn],
                numConns := s.numConns + 1,
                pendingJobs := s.pendingJobs - 1 }, [.notifyOne])
  | .error err =>
      ({ s with pendingJobs := s.pendingJobs - 1 }, [.reported err])

/-- Model of `Pool::new` (lib.rs lines 128-153): validate the config, build internals
with an empty ready queue, `num_conns = pool_size` and a
`ScheduledThreadPool::new(helper_tasks)`, then call `add_connection` once per
`range(0, pool_size)` iteration. It returns without running any job. -/
def Pool.new (C : Type) (cfg : Config) : Except ConfigError (PoolState C) := do
  let _ ← cfg.validate
  let init : PoolState C :=
    { conns := [], numConns := cfg.pool_size, pendingJobs := 0,
      workers := cfg.helper_tasks }
  .ok ((List.range cfg.pool_size).foldl (fun s _ => add_connection s) init)

/-- Outcome of one iteration of the `loop` in `Pool::get`
(lib.rs lines 159-182): `got c` means the iteration returns
`Ok(PooledConnection { conn: Some(c), .. })`; `invalid e` means `is_valid`
failed and the loop `continue`s; `wait` means the queue was empty and the
iteration blocks on `cond.wait`. -/
inductive GetResult (C E : Type) where
  | got (c : C)
  | invalid (e : E)
  | wait
  deriving DecidableEq, Repr

/-- One iteration of the `loop` in `Pool::get` (lib.rs lines 156-183),
parametrised by `test = config.test_on_check_out` and the manager's
`is_valid`. Pop the queue front; if `test_on_check_out` and `is_valid` fails:
`handle_error(e)`, re-lock, `num_conns -= 1`, `continue`. Otherwise return the
popped connection. An empty queue waits on the condition variable. -/
def getStep {C E : Type} (test : Bool) (isValid : C → Except E Unit)
    (s : PoolState C) : PoolState C × GetResult C E × List (Effect E) :=
  match s.conns with
  | [] => (s, .wait, [])
  | c :: rest =>
      if test then
        match isValid c with
        | .ok _ => ({ s with conns := rest }, .got c, [])
        | .error e =>
            ({ s with conns := rest, numConns := s.numConns - 1 },
             .invalid e, [.reported e])
      else ({ s with conns := rest }, .got c, [])

/-- Model of `Pool::put_back` (lib.rs lines 185-196), run by the borrow handle's `Drop`:
call `has_broken` first, then lock; if broken, `num_conns -= 1`; else
`conns.push_back(conn)` and `cond.notify_one()`. -/
def put_back {C E : Type} (hasBroken : C → Bool) (conn : C) (s : PoolState C) :
    PoolState C × List (Effect E) :=
  let broken := hasBroken conn
  if broken then
    ({ s with numConns := s.numConns - 1 }, [])
  else
    ({ s with conns := s.conns ++ [conn] }, [.notifyOne])

/-- Reachable pool configurations. A configuration is the internals state
paired with the multiset (as a list) of connections held by outstanding
borrow handles. Transitions are exactly the operations of lib.rs: a pending
`add_connection` job runs with some `connect` outcome; a `get` iteration pops
a connection (keeping it in a handle) or discards an invalid one; a handle is
dropped, running `put_back` on its connection. -/
inductive PoolReach {C E : Type} [DecidableEq C] (test : Bool) (isValid : C → Except E Unit)
    (hasBroken : C → Bool) (cfg : Config) :
    PoolState C × List C → Prop where
  | init (s0 : PoolState C) : Pool.new C cfg = .ok s0 →
      PoolReach test isValid hasBroken cfg (s0, [])
  | job (p : PoolState C × List C) (res : Except E C) :
      PoolReach test isValid hasBroken cfg p → 0 < p.1.pendingJobs →
      PoolReach test isValid hasBroken cfg ((connJobRun res p.1).1, p.2)
  | getGot (p : PoolState C × List C) (s' : PoolState C) (c : C)
      (effs : List (Effect E)) :
      PoolReach test isValid hasBroken cfg p →
      getStep test isValid p.1 = (s', .got c, effs) →
      PoolReach test isValid hasBroken cfg (s', c :: p.2)
  | getInvalid (p : PoolState C × List C) (s' : PoolState C) (e : E)
      (effs : List (Effect E)) :
      PoolReach test isValid hasBroken cfg p →
      getStep test isValid p.1 = (s', .invalid e, effs) →
      PoolReach test isValid hasBroken cfg (s', p.2)
  | ret (p : PoolState C × List C) (c : C) :
      PoolReach test isValid hasBroken cfg p → c ∈ p.2 →
      PoolReach test isValid hasBroken cfg
        ((put_back (E := E) hasBroken c p.1).1, p.2.erase c)

/-- The tag of a scheduled job (task.rs lines 10-16): `Once` runs a thunk a
single time; `FixedRate` carries the period (`rate`, in nanoseconds). The
closures themselves carry no data relevant to scheduling and are omitted. -/
inductive JobType where
  | Once
  | FixedRate (rate : Nat)
  deriving DecidableEq, Repr

/-- A scheduled job (task.rs lines 18-21): its tag and its absolute deadline
`time : u64` in nanoseconds. `Job`'s `Ord` instance orders by `time` reversed,
making `BinaryHeap` a min-heap on `time`. -/
structure Job where
  type_ : JobType
  time : Nat
  deriving DecidableEq, Repr

/-- Model of `InnerPool` (task.rs lines 44-47): the job heap and the shutdown flag.
The `BinaryHeap<Job>` is modelled as a list of its elements; `push` conses,
and `peek` is characterised through `peekTime` below. -/
structure InnerPool where
  queue : List Job
  shutdown : Bool
  deriving DecidableEq, Repr

/-- The deadline of the heap top: `BinaryHeap::peek` returns a maximal element
for `Job`'s ordering, i.e. one of minimal `time`, so `peek` observes exactly
the minimum `time` of the queue (`none` when empty). -/
def peekTime (q : List Job) : Option Nat :=
  q.foldr
    (fun j acc =>
      match acc with
      | none => some j.time
      | some t => some (min j.time t))
    none

/-- Model of `SharedPool::run` (task.rs lines 55-69): if shut down, drop the job;
otherwise notify all workers when the heap is empty or the top's `time` is
strictly greater than the new job's `time`, then push the job. The returned
`Bool` records whether `cvar.notify_all()` was called. -/
def SharedPool.run (p : InnerPool) (job : Job) : InnerPool × Bool :=
  if p.shutdown then (p, false)
  else
    let notified :=
      match peekTime p.queue with
      | none => true
      | some t => decide (t > job.time)
    ({ queue := job :: p.queue, shutdown := p.shutdown }, notified)

/-- Model of `Worker::run_job` (task.rs lines 208-220): a `Once` job just invokes its
thunk; a `FixedRate` job invokes its closure and then pushes, via
`SharedPool::run`, a fresh `FixedRate` job whose deadline is
`(job.time as i64 + rate) as u64`, i.e. `(job.time + rate) % 2 ^ 64` under the
wrapping cast semantics. The returned `Bool` is `SharedPool.run`'s
notification flag (`false` for `Once`). -/
def Worker.run_job (p : InnerPool) (job : Job) : InnerPool × Bool :=
  match job.type_ with
  | .Once => (p, false)
  | .FixedRate rate =>
      SharedPool.run p
        { type_ := .FixedRate rate, time := (job.time + rate) % 2 ^ 64 }

/-- Model of `ScheduledThreadPool` (task.rs lines 76-78, 93-119) as constructed by
`new`: the spawned workers (one `Unit` entry per spawned thread) and the
shared `InnerPool`. -/
structure STPool where
  workers : List Unit
  inner : InnerPool
  deriving DecidableEq, Repr

/-- Model of `ScheduledThreadPool::new` (task.rs lines 93-119): `assert!(size > 0,
"size must be positive")`, modelled as an `Except` error; on success the
queue starts empty, not shut down, and the `for` loop over `(0..size)` spawns
one worker thread per iteration. -/
def ScheduledThreadPool.new (size : Nat) : Except String STPool :=
  if size > 0 then
    .ok { workers := (List.range size).map (fun _ => ()),
          inner := { queue := [], shutdown := false } }
  else .error "size must be positive"

/-- Model of `PooledConnection` (lib.rs lines 200-204): the borrow handle, holding
`conn : Option C`. -/
structure PooledConnection (C : Type) where
  conn : Option C
  deriving DecidableEq, Repr

/-- The handle built by `Pool::get` on success (lib.rs lines 173-176):
`PooledConnection { pool: self, conn: Some(conn) }`. -/
def PooledConnection.mk_from_get {C : Type} (c : C) : PooledConnection C :=
  { conn := some c }

/-- Model of `Deref::deref` (lib.rs lines 226-228): `self.conn.as_ref().unwrap()`.
`none` models the `unwrap` panic. -/
def PooledConnection.deref {C : Type} (h : PooledConnection C) : Option C :=
  h.conn

/-- Model of `DerefMut::deref_mut` (lib.rs lines 233-235): `self.conn.as_mut().unwrap()`
returns the connection and leaves the handle unchanged; `none` models the
`unwrap` panic. -/
def PooledConnection.deref_mut {C : Type} (h : PooledConnection C) :
    Option (C × PooledConnection C) :=
  match h.conn with
  | some c => some (c, h)
  | none => none

/-- Model of `Drop::drop` (lib.rs lines 217-219):
`self.pool.put_back(self.conn.take().unwrap())` — take the connection out
(leaving `conn = None`) and hand it to `put_back`. `none` models the `unwrap`
panic; on success the taken connection and the emptied handle are returned. -/
def PooledConnection.drop_handle {C : Type} (h : PooledConnection C) :
    Option (C × PooledConnection C) :=
  match h.conn with
  | some c => some (c, { conn := none })
  | none => none

/-- Accesses a borrower can perform on a live handle before dropping it:
`Deref` and `DerefMut` (lib.rs lines 222-236). Neither mutates the `conn`
field. -/
inductive HandleOp where
  | deref
  | derefMut
  deriving DecidableEq, Repr

/-- Run a sequence of `Deref`/`DerefMut` accesses on a handle; each access
leaves the `conn` field as is (both are read-only on the `Option`). -/
def PooledConnection.runOps {C : Type} (h : PooledConnection C)
    (ops : List HandleOp) : PooledConnection C :=
  match ops with
  | [] => h
  | .deref :: rest => PooledConnection.runOps h rest
  | .derefMut :: rest => PooledConnection.runOps h rest

/-- Running `Deref`/`DerefMut` accesses leaves the handle unchanged. -/
theorem runOps_eq {C : Type} (h : PooledConnection C) (ops : List HandleOp) :
    PooledConnection.runOps h ops = h := by
  induction ops with
  | nil => rfl
  | cons op rest ih => cases op <;> simpa [PooledConnection.runOps] using ih

/-- The `for` loop of `Pool::new` adds one pending job per iteration. -/
theorem foldl_add_connection {C : Type} (s : PoolState C) (l : List Nat) :
    l.foldl (fun s _ => add_connection s) s =
      { s with pendingJobs := s.pendingJobs + l.length } := by
  induction l generalizing s with
  | nil => simp
  | cons a t ih =>
      rw [List.foldl_cons, ih]
      simp only [add_connection, List.length_cons, PoolState.mk.injEq]
      exact ⟨trivial, trivial, by omega, trivial⟩

/-- Evaluating `peekTime` on a nonempty queue combines the head's deadline with the
tail's minimum. -/
theorem peekTime_cons (j : Job) (q : List Job) :
    peekTime (j :: q) =
      some (match peekTime q with
            | none => j.time
            | some t => min j.time t) := by
  cases h : peekTime q <;> simp [peekTime] <;> simp [peekTime] at h <;> simp [h]

/-- A queue has no top deadline exactly when it is empty. -/
theorem peekTime_eq_none_iff (q : List Job) : peekTime q = none ↔ q = [] := by
  cases q with
  | nil => simp [peekTime]
  | cons j t => simp [peekTime_cons]

/-- C1: the claim "for every reachable state, num_conns ≤ pool_size" FAILS on
the code. `Pool::new` initialises `num_conns = pool_size` (lib.rs line 134)
and every successful `add_connection` job ALSO does `num_conns += 1`
(lib.rs line 101), double-counting. With `pool_size = 1`, after the single
initial replacement job's `connect` succeeds, the reachable state has
`num_conns = 2 > 1`. The theorem exhibits this reachable state. -/
theorem num_conns_exceeds_pool_size :
    Pool.new Unit ⟨1, 1, false⟩ = .ok ⟨[], 1, 1, 1⟩ ∧
    PoolReach (E := Unit) false (fun _ => .ok ()) (fun _ => false) ⟨1, 1, false⟩
      ((⟨[()], 2, 0, 1⟩ : PoolState Unit), []) ∧
    (⟨1, 1, false⟩ : Config).pool_size <
      (⟨[()], 2, 0, 1⟩ : PoolState Unit).numConns := by
  have h0 : Pool.new Unit ⟨1, 1, false⟩ = .ok ⟨[], 1, 1, 1⟩ := rfl
  refine ⟨h0, ?_, by decide⟩
  have h1 := @PoolReach.init Unit Unit _ false (fun _ => .ok ())
    (fun _ => false) ⟨1, 1, false⟩ ⟨[], 1, 1, 1⟩ h0
  have h2 := PoolReach.job (⟨[], 1, 1, 1⟩, []) (.ok ()) h1 (by decide)
  simpa [connJobRun] using h2

/-- C2 counterexample: at a concrete state with one (always-invalid) ready
connection, the validate-failure path of `Pool::get` reports the error and
decrements `num_conns`, but enqueues NO replacement job: `pendingJobs` stays
`0` instead of becoming `1` as the claim requires. -/
theorem checkout_invalid_no_replacement_cex :
    getStep true (fun _ => .error ()) (⟨[()], 1, 0, 1⟩ : PoolState Unit) =
      (⟨[], 0, 0, 1⟩, .invalid (), [.reported ()]) ∧
    ¬ (getStep true (fun _ => .error ()) (⟨[()], 1, 0, 1⟩ : PoolState Unit)).1.pendingJobs =
        (⟨[()], 1, 0, 1⟩ : PoolState Unit).pendingJobs + 1 := by
  constructor <;> decide

/-- C2 (amended): in `Pool::get` with `test_on_check_out`, when `is_valid`
fails on the popped connection the pool reports the error, re-acquires the
lock, decrements `num_conns`, and loops to the next iteration (result
`invalid e`); no replacement job is enqueued (`pendingJobs` unchanged). -/
theorem checkout_invalid_reports_and_decrements {C E : Type}
    (isValid : C → Except E Unit) (s : PoolState C) (c : C) (rest : List C)
    (e : E) (hc : s.conns = c :: rest) (hv : isValid c = .error e) :
    getStep true isValid s =
      ({ s with conns := rest, numConns := s.numConns - 1 },
       .invalid e, [.reported e]) := by
  obtain ⟨conns, n, pj, w⟩ := s
  simp only at hc
  subst hc
  simp [getStep, hv]

/-- Witness for C2's amended theorem at a concrete input. -/
theorem checkout_invalid_reports_and_decrements_wit :
    getStep true (fun _ => .error ()) (⟨[()], 1, 2, 1⟩ : PoolState Unit) =
      (⟨[], 0, 2, 1⟩, .invalid (), [.reported ()]) := by
  simpa using checkout_invalid_reports_and_decrements
    (fun _ => .error ()) ⟨[()], 1, 2, 1⟩ () [] () rfl rfl

/-- C3 counterexample: at a concrete state, returning a broken connection
through `put_back` decrements `num_conns` and discards the connection, but
enqueues NO replacement job: `pendingJobs` stays `0` instead of becoming `1`
as the claim requires. -/
theorem put_back_broken_no_replacement_cex :
    put_back (E := Unit) (fun _ => true) () (⟨[], 1, 0, 1⟩ : PoolState Unit) =
      (⟨[], 0, 0, 1⟩, []) ∧
    ¬ (put_back (E := Unit) (fun _ => true) ()
        (⟨[], 1, 0, 1⟩ : PoolState Unit)).1.pendingJobs =
        (⟨[], 1, 0, 1⟩ : PoolState Unit).pendingJobs + 1 := by
  constructor <;> decide

/-- C3 (amended): when a borrow handle is dropped and `has_broken` returns
`true`, `put_back` decrements `num_conns` and discards the connection silently
(the ready queue is unchanged, so the broken connection is not pushed back;
no effect is emitted); no replacement job is enqueued (`pendingJobs`
unchanged). -/
theorem put_back_broken_discards_silently {C E : Type} (hasBroken : C → Bool)
    (c : C) (s : PoolState C) (hb : hasBroken c = true) :
    put_back (E := E) hasBroken c s =
      ({ s with numConns := s.numConns - 1 }, []) := by
  simp [put_back, hb]

/-- Witness for C3's amended theorem at a concrete input. -/
theorem put_back_broken_discards_silently_wit :
    put_back (E := Unit) (fun _ => true) () (⟨[()], 2, 3, 1⟩ : PoolState Unit) =
      (⟨[()], 1, 3, 1⟩, []) := by
  simpa using put_back_broken_discards_silently
    (E := Unit) (fun _ => true) () ⟨[()], 2, 3, 1⟩ rfl

/-- C4: from any state whose ready queue is non-empty, when the popped
connection passes checkout (either `test_on_check_out` is off or `is_valid`
succeeds) and `has_broken` is `false`, a `get` iteration followed by
`put_back` (the handle drop) returns the popped connection, leaves
`num_conns` unchanged, and leaves the ready queue unchanged as a multiset
(the connection moves from the front to the back). -/
theorem get_then_drop_preserves_state {C E : Type} (test : Bool)
    (isValid : C → Except E Unit) (hasBroken : C → Bool) (s : PoolState C)
    (c : C) (rest : List C) (hc : s.conns = c :: rest)
    (hv : test = false ∨ isValid c = .ok ()) (hb : hasBroken c = false) :
    (getStep test isValid s).2.1 = .got c ∧
    (put_back (E := E) hasBroken c (getStep test isValid s).1).1.numConns =
      s.numConns ∧
    Multiset.ofList
        (put_back (E := E) hasBroken c (getStep test isValid s).1).1.conns =
      Multiset.ofList s.conns := by
  obtain ⟨conns, n, pj, w⟩ := s
  simp only at hc
  subst hc
  have hstep : getStep test isValid (⟨c :: rest, n, pj, w⟩ : PoolState C) =
      ((⟨rest, n, pj, w⟩ : PoolState C), .got c, []) := by
    rcases hv with hv | hv
    · subst hv; simp [getStep]
    · cases test <;> simp [getStep, hv]
  rw [hstep]
  refine ⟨rfl, ?_, ?_⟩
  · simp [put_back, hb]
  · simp only [put_back, hb, Bool.false_eq_true, if_false]
    exact Multiset.coe_eq_coe.mpr (List.perm_append_singleton c rest)

/-- Witness for C4 at a concrete input. -/
theorem get_then_drop_preserves_state_wit :
    (getStep (E := Unit) false (fun _ => .ok ())
        (⟨[true, false], 2, 0, 1⟩ : PoolState Bool)).2.1 = .got true ∧
    (put_back (E := Unit) (fun _ => false) true
        (getStep (E := Unit) false (fun _ => .ok ())
          (⟨[true, false], 2, 0, 1⟩ : PoolState Bool)).1).1.numConns = 2 ∧
    Multiset.ofList
        (put_back (E := Unit) (fun _ => false) true
          (getStep (E := Unit) false (fun _ => .ok ())
            (⟨[true, false], 2, 0, 1⟩ : PoolState Bool)).1).1.conns =
      Multiset.ofList [true, false] := by
  exact get_then_drop_preserves_state false (fun _ => .ok ()) (fun _ => false)
    ⟨[true, false], 2, 0, 1⟩ true [false] rfl (Or.inl rfl) rfl

/-- C5: when a replacement job enqueued by `add_connection` runs with
`connect` outcome `res`: on success it pushes the new connection onto the
back of the ready queue, increments `num_conns`, and notifies exactly one
waiter; on failure it reports the error to the error handler and changes
nothing else. In both cases the job consumes itself and does not reschedule
(`pendingJobs` drops by one and only by one). -/
theorem replacement_job_spec {C E : Type} (res : Except E C) (s : PoolState C)
    (_hp : 0 < s.pendingJobs) :
    (∀ c, res = .ok c →
      connJobRun res s =
        ({ s with conns := s.conns ++ [c], numConns := s.numConns + 1,
                  pendingJobs := s.pendingJobs - 1 }, [.notifyOne])) ∧
    (∀ e, res = .error e →
      connJobRun res s =
        ({ s with pendingJobs := s.pendingJobs - 1 }, [.reported e])) := by
  constructor
  · rintro c rfl; rfl
  · rintro e rfl; rfl

/-- Witness for C5 at concrete inputs: a succeeding and a failing job. -/
theorem replacement_job_spec_wit :
    connJobRun (E := Unit) (.ok ()) (⟨[], 1, 1, 1⟩ : PoolState Unit) =
      (⟨[()], 2, 0, 1⟩, [.notifyOne]) ∧
    connJobRun (.error () : Except Unit Unit) (⟨[], 1, 1, 1⟩ : PoolState Unit) =
      (⟨[], 1, 0, 1⟩, [.reported ()]) := by
  constructor
  · simpa using (replacement_job_spec (.ok ()) ⟨[], 1, 1, 1⟩ (by decide)).1 () rfl
  · simpa using
      (replacement_job_spec (.error ()) ⟨[], 1, 1, 1⟩ (by decide)).2 () rfl

/-- C6: `Pool::new` returns an error exactly when the config is invalid
(reason: spec-modelled validation, `pool_size > 0` and `helper_threads ≥ 1`);
on a valid config it returns, without running any job, internals with an
empty ready queue, `num_conns = pool_size`, a scheduled worker pool of
`helper_tasks` workers, and exactly `pool_size` enqueued replacement jobs. -/
theorem pool_new_spec (C : Type) (cfg : Config) :
    ((Pool.new C cfg).isOk ↔ 0 < cfg.pool_size ∧ 0 < cfg.helper_tasks) ∧
    (0 < cfg.pool_size → 0 < cfg.helper_tasks →
      Pool.new C cfg =
        .ok { conns := [], numConns := cfg.pool_size,
              pendingJobs := cfg.pool_size, workers := cfg.helper_tasks }) := by
  have hfold := foldl_add_connection
    (C := C) { conns := [], numConns := cfg.pool_size, pendingJobs := 0,
               workers := cfg.helper_tasks } (List.range cfg.pool_size)
  constructor
  · rcases Nat.eq_zero_or_pos cfg.pool_size with hps | hps
    · simp [Pool.new, Config.validate, hps, Except.isOk, Except.toBool, Bind.bind,
            Except.bind]
    · rcases Nat.eq_zero_or_pos cfg.helper_tasks with hht | hht
      · simp [Pool.new, Config.validate, Nat.pos_iff_ne_zero.mp hps, hht,
              Except.isOk, Except.toBool, Bind.bind, Except.bind]
      · simp [Pool.new, Config.validate, Nat.pos_iff_ne_zero.mp hps,
              Nat.pos_iff_ne_zero.mp hht, Except.isOk, Except.toBool, Bind.bind,
              Except.bind, hps, hht]
  · intro hps hht
    simp only [Pool.new, Config.validate, Nat.pos_iff_ne_zero.mp hps,
               Nat.pos_iff_ne_zero.mp hht, if_false, Bind.bind, Except.bind,
               hfold, List.length_range]
    simp

/-- Witness for C6 at a concrete valid config. -/
theorem pool_new_spec_wit :
    ((Pool.new Unit ⟨2, 3, true⟩).isOk ↔
      0 < (2 : Nat) ∧ 0 < (3 : Nat)) ∧
    Pool.new Unit ⟨2, 3, true⟩ = .ok ⟨[], 2, 2, 3⟩ := by
  refine ⟨(pool_new_spec Unit ⟨2, 3, true⟩).1, ?_⟩
  simpa using (pool_new_spec Unit ⟨2, 3, true⟩).2 (by decide) (by decide)

/-- C7: `SharedPool::run` on a pool that is not shut down notifies the
workers' condition variable iff the heap was empty or the new job's deadline
is strictly earlier than the previous heap top's deadline, then pushes the
job. -/
theorem push_notifies_iff_earlier_deadline (p : InnerPool) (job : Job)
    (hs : p.shutdown = false) :
    ((SharedPool.run p job).2 = true ↔
      p.queue = [] ∨ ∃ t, peekTime p.queue = some t ∧ job.time < t) ∧
    (SharedPool.run p job).1.queue = job :: p.queue := by
  constructor
  · simp only [SharedPool.run, hs, Bool.false_eq_true, if_false]
    cases h : peekTime p.queue with
    | none => simp [(peekTime_eq_none_iff p.queue).mp h]
    | some t =>
        have hne : p.queue ≠ [] := by
          intro h0
          rw [(peekTime_eq_none_iff p.queue).mpr h0] at h
          exact Option.noConfusion h
        simp [h, hne, Nat.lt_iff_add_one_le]
  · simp [SharedPool.run, hs]

/-- Witness for C7 at a concrete input: pushing a job with deadline 3 onto a
queue whose top deadline is 7 notifies. -/
theorem push_notifies_iff_earlier_deadline_wit :
    ((SharedPool.run ⟨[⟨.Once, 7⟩], false⟩ ⟨.Once, 3⟩).2 = true ↔
      [(⟨.Once, 7⟩ : Job)] = [] ∨
        ∃ t, peekTime [⟨.Once, 7⟩] = some t ∧ 3 < t) ∧
    (SharedPool.run ⟨[⟨.Once, 7⟩], false⟩ ⟨.Once, 3⟩).1.queue =
      [⟨.Once, 3⟩, ⟨.Once, 7⟩] :=
  push_notifies_iff_earlier_deadline ⟨[⟨.Once, 7⟩], false⟩ ⟨.Once, 3⟩ rfl

/-- C8: after a `FixedRate` job with deadline `d` and period `rate` executes,
a fresh `FixedRate` job with deadline exactly `d + rate` (previous deadline
plus period) and the same period is pushed — provided the sum stays within
`u64` so the wrapping cast is the identity; if the pool has been shut down,
the re-enqueue is silently dropped and the pool state is unchanged. -/
theorem fixed_rate_reschedules_at_prev_plus_period (p : InnerPool) (job : Job)
    (rate : Nat) (ht : job.type_ = .FixedRate rate)
    (hw : job.time + rate < 2 ^ 64) :
    (p.shutdown = false →
      (Worker.run_job p job).1.queue =
        (⟨.FixedRate rate, job.time + rate⟩ : Job) :: p.queue) ∧
    (p.shutdown = true → (Worker.run_job p job).1 = p) := by
  have hmod : (job.time + rate) % 2 ^ 64 = job.time + rate :=
    Nat.mod_eq_of_lt hw
  constructor
  · intro hs
    simp [Worker.run_job, ht, SharedPool.run, hs, hmod]
    omega
  · intro hs
    simp [Worker.run_job, ht, SharedPool.run, hs]

/-- Witness for C8 at a concrete input: a fixed-rate job with deadline 10 and
period 5 is re-enqueued with deadline 15 when the pool is live. -/
theorem fixed_rate_reschedules_at_prev_plus_period_wit :
    (Worker.run_job ⟨[], false⟩ ⟨.FixedRate 5, 10⟩).1.queue =
      [(⟨.FixedRate 5, 15⟩ : Job)] := by
  simpa using (fixed_rate_reschedules_at_prev_plus_period
    ⟨[], false⟩ ⟨.FixedRate 5, 10⟩ 5 rfl (by norm_num)).1 rfl

/-- C9: `ScheduledThreadPool::new(0)` fails (the `assert!` fires), and for
every positive `n` it succeeds, spawning exactly `n` worker threads. -/
theorem stp_new_zero_fails_and_spawns_n :
    (ScheduledThreadPool.new 0).isOk = false ∧
    ∀ n : Nat, 0 < n → ∃ p : STPool,
      ScheduledThreadPool.new n = .ok p ∧ p.workers.length = n := by
  constructor
  · rfl
  · intro n hn
    refine ⟨{ workers := (List.range n).map (fun _ => ()),
              inner := { queue := [], shutdown := false } }, ?_, by simp⟩
    simp [ScheduledThreadPool.new, hn]

/-- Witness for C9: the zero case fails and `new 3` spawns three workers. -/
theorem stp_new_zero_fails_and_spawns_n_wit :
    (ScheduledThreadPool.new 0).isOk = false ∧
    ∃ p : STPool, ScheduledThreadPool.new 3 = .ok p ∧ p.workers.length = 3 :=
  ⟨stp_new_zero_fails_and_spawns_n.1,
   stp_new_zero_fails_and_spawns_n.2 3 (by decide)⟩

/-- C10: a handle built by `Pool::get` holds `conn = some c`, and `Deref` and
`DerefMut` accesses never change that, so their `unwrap`s (and the one in
`Drop`) cannot panic on a live handle; `Drop` takes the connection out
exactly once, leaving `conn = none`, and a hypothetical second take on the
emptied handle would find nothing. -/
theorem pooled_connection_conn_is_some (C : Type) (c : C)
    (ops : List HandleOp) :
    (PooledConnection.runOps (PooledConnection.mk_from_get c) ops).conn =
      some c ∧
    PooledConnection.deref
        (PooledConnection.runOps (PooledConnection.mk_from_get c) ops) =
      some c ∧
    PooledConnection.deref_mut
        (PooledConnection.runOps (PooledConnection.mk_from_get c) ops) =
      some (c, PooledConnection.mk_from_get c) ∧
    PooledConnection.drop_handle
        (PooledConnection.runOps (PooledConnection.mk_from_get c) ops) =
      some (c, { conn := none }) ∧
    PooledConnection.drop_handle ({ conn := none } : PooledConnection C) =
      none := by
  rw [runOps_eq]
  exact ⟨rfl, rfl, rfl, rfl, rfl⟩
